import Mathlib

/-!
Shallow embedding of the buffered UARTE driver
(`src/embassy-nrf/src/buffered_uarte.rs`).

The driver state (`State`), the interrupt step function (`on_interrupt`,
split into `rxStep` / `txStep` and the two `while more_work` loops), and
the async byte-stream interface (`poll_fill_buf`, `consume`, `poll_write`)
are translated directly from the Rust source.  Hardware register writes
that leave the driver (DMA pointer/length programming, start/stop tasks,
interrupt enable/disable, waking, pending the interrupt) are recorded in
an `Effect` trace; hardware event flags and the RXD.AMOUNT register are
modelled as fields of `Hw`.  A Rust `panic!` is modelled as `Except.error`
carrying the observable state and effect trace at the point of the abort.
-/

/-- Receive state machine states, from `enum RxState`. -/
inductive RxState where
  | Idle
  | Receiving
  | ReceivingReady
  | Stopping
deriving DecidableEq

/-- Transmit state machine states, from `enum TxState`. -/
inductive TxState where
  | Idle
  | Transmitting (n : Nat)
deriving DecidableEq

/-- Writes the byte list `bs` into `l` at consecutive positions starting at `pos`. -/
def writeAt : List Nat → Nat → List Nat → List Nat
  | l, _, [] => l
  | l, pos, b :: bs => writeAt (l.set pos b) (pos + 1) bs

/-- Modelled from the spec: the ring buffer collaborator
(`crate::util::ring_buffer::RingBuffer`, not part of the sources) is a
fixed-capacity circular byte store: `buf` is the cyclic storage of size
`cap`, `start` the read position, `len` the number of filled bytes. -/
structure RingBuffer where
  cap : Nat
  buf : List Nat
  start : Nat
  len : Nat
deriving DecidableEq

/-- Modelled from the spec: length of the maximal contiguous readable run. -/
def RingBuffer.pop_buf_len (rb : RingBuffer) : Nat := min rb.len (rb.cap - rb.start)

/-- Modelled from the spec: the contiguous readable region (`pop_buf`). -/
def RingBuffer.pop_buf (rb : RingBuffer) : List Nat :=
  (List.range rb.pop_buf_len).map (fun i => rb.buf.getD (rb.start + i) 0)

/-- Modelled from the spec: release `n` bytes from the filled region (`pop`). -/
def RingBuffer.pop (rb : RingBuffer) (n : Nat) : RingBuffer :=
  { rb with start := (rb.start + n) % rb.cap, len := rb.len - n }

/-- Modelled from the spec: the write position, one past the filled region. -/
def RingBuffer.wpos (rb : RingBuffer) : Nat := (rb.start + rb.len) % rb.cap

/-- Modelled from the spec: length of the maximal contiguous writable run
(`push_buf().len()`). -/
def RingBuffer.push_buf_len (rb : RingBuffer) : Nat :=
  min (rb.cap - rb.len) (rb.cap - rb.wpos)

/-- Modelled from the spec: commit `n` bytes already written into the free
region (`push`); used on the RX side where the DMA engine wrote the bytes. -/
def RingBuffer.push (rb : RingBuffer) (n : Nat) : RingBuffer :=
  { rb with len := rb.len + n }

/-- Modelled from the spec: copy `bs` into the contiguous free region and
commit it; the combination of `push_buf` slice writing and `push` performed
by `poll_write`. -/
def RingBuffer.write_push (rb : RingBuffer) (bs : List Nat) : RingBuffer :=
  { rb with buf := writeAt rb.buf rb.wpos bs, len := rb.len + bs.length }

/-- Full filled content of the ring buffer in read order (wrap-around included). -/
def RingBuffer.contents (rb : RingBuffer) : List Nat :=
  (List.range rb.len).map (fun i => rb.buf.getD ((rb.start + i) % rb.cap) 0)

/-- Well-formedness of a ring buffer: storage matches capacity, read position
in range, fill level within capacity. -/
def RingBuffer.WF (rb : RingBuffer) : Prop :=
  rb.buf.length = rb.cap ∧ rb.start < rb.cap ∧ rb.len ≤ rb.cap

/-- Hardware-owned state read by the driver: the UARTE event flags
(`events_rxdrdy`, `events_endrx`, `events_endtx`; a flag is `true` when the
register reads nonzero) and the `rxd.amount` register. -/
structure Hw where
  events_rxdrdy : Bool
  events_endrx : Bool
  events_endtx : Bool
  rxd_amount : Nat
deriving DecidableEq

/-- Outward actions of the driver: register writes leaving the driver state,
waker wakes, and pending the interrupt. -/
inductive Effect where
  | setRxdPtr
  | setRxdMaxcnt (n : Nat)
  | intensetRxdrdy
  | intenclrRxdrdy
  | startRx
  | stopRx
  | setTxdPtr
  | setTxdMaxcnt (n : Nat)
  | startTx
  | wakeRx
  | wakeTx
  | pendIrq
deriving DecidableEq

/-- Driver state, from `struct State`: the peripheral's event flags, the two
ring buffers, the two state machines, and the two waker registrations (a
registration is modelled as the `Bool` "a waiter is registered", per the
Waker Registration contract of the spec; `embassy::util::WakerRegistration`
is not part of the sources). -/
structure State where
  hw : Hw
  rx : RingBuffer
  rx_state : RxState
  rx_waker : Bool
  tx : RingBuffer
  tx_state : TxState
  tx_waker : Bool
deriving DecidableEq

/-- Modelled from the spec: `WakerRegistration::wake` on the RX side — wakes
the registered waiter if any, clearing the registration; no-op otherwise. -/
def doWakeRx (s : State) : State × List Effect :=
  if s.rx_waker then ({ s with rx_waker := false }, [Effect.wakeRx]) else (s, [])

/-- Modelled from the spec: `WakerRegistration::wake` on the TX side. -/
def doWakeTx (s : State) : State × List Effect :=
  if s.tx_waker then ({ s with tx_waker := false }, [Effect.wakeTx]) else (s, [])

/-- One iteration of the RX `while more_work` loop of `on_interrupt`
(the `match self.rx_state` block).  Returns the new state, the effects
emitted, and the `more_work` flag; `Except.error` models the
`panic!("unexpected endrx")` abort, carrying the observable state and
effects at the abort point. -/
def rxStep (s : State) : Except (State × List Effect) (State × List Effect × Bool) :=
  match s.rx_state with
  | RxState.Idle =>
      let s0 := if s.hw.events_rxdrdy then
                  { s with hw := { s.hw with events_rxdrdy := false } }
                else s
      if s0.hw.events_endrx then
        Except.error (s0, [])
      else
        let freeLen := s0.rx.push_buf_len
        if freeLen ≠ 0 then
          let s1 := { s0 with
                      rx_state := RxState.Receiving
                      hw := { s0.hw with events_rxdrdy := false } }
          Except.ok (s1, [Effect.setRxdPtr, Effect.setRxdMaxcnt freeLen,
                          Effect.intensetRxdrdy, Effect.startRx], false)
        else
          Except.ok (s0, [], false)
  | RxState.Receiving =>
      if s.hw.events_rxdrdy then
        let s1 := { s with hw := { s.hw with events_rxdrdy := false } }
        let r := doWakeRx s1
        Except.ok ({ r.1 with rx_state := RxState.ReceivingReady },
                   Effect.intenclrRxdrdy :: r.2, true)
      else
        Except.ok (s, [], false)
  | RxState.ReceivingReady | RxState.Stopping =>
      let s0 := if s.hw.events_rxdrdy then
                  { s with hw := { s.hw with events_rxdrdy := false } }
                else s
      if s0.hw.events_endrx then
        let n := s0.hw.rxd_amount
        let s1 := { s0 with
                    rx := s0.rx.push n
                    hw := { s0.hw with events_endrx := false } }
        let r := doWakeRx s1
        Except.ok ({ r.1 with rx_state := RxState.Idle }, r.2, true)
      else
        Except.ok (s0, [], false)

/-- One iteration of the TX `while more_work` loop of `on_interrupt`
(the `match self.tx_state` block). -/
def txStep (s : State) : State × List Effect × Bool :=
  match s.tx_state with
  | TxState.Idle =>
      let n := s.tx.pop_buf_len
      if n ≠ 0 then
        ({ s with tx_state := TxState.Transmitting n },
         [Effect.setTxdPtr, Effect.setTxdMaxcnt n, Effect.startTx], false)
      else (s, [], false)
  | TxState.Transmitting n =>
      if s.hw.events_endtx then
        let s1 := { s with
                    hw := { s.hw with events_endtx := false }
                    tx := s.tx.pop n }
        let r := doWakeTx s1
        ({ r.1 with tx_state := TxState.Idle }, r.2, true)
      else (s, [], false)

/-- The RX `while more_work` loop, fuelled.  `rxLoop_stable` below shows the
result is independent of the fuel from 3 on, so `runRxLoopF 3` is the exact
fixed point the Rust loop computes. -/
def runRxLoopF : Nat → State → Except (State × List Effect) (State × List Effect)
  | 0, s => Except.ok (s, [])
  | fuel + 1, s =>
      match rxStep s with
      | Except.error e => Except.error e
      | Except.ok (s', effs, false) => Except.ok (s', effs)
      | Except.ok (s', effs, true) =>
          match runRxLoopF fuel s' with
          | Except.error (se, ee) => Except.error (se, effs ++ ee)
          | Except.ok (s'', ee) => Except.ok (s'', effs ++ ee)

/-- The TX `while more_work` loop, fuelled; stable from fuel 2 on. -/
def runTxLoopF : Nat → State → State × List Effect
  | 0, s => (s, [])
  | fuel + 1, s =>
      match txStep s with
      | (s', effs, false) => (s', effs)
      | (s', effs, true) =>
          let r := runTxLoopF fuel s'
          (r.1, effs ++ r.2)

/-- The interrupt step function `State::on_interrupt`: the RX loop run to its
fixed point, then the TX loop run to its fixed point. -/
def on_interrupt (s : State) : Except (State × List Effect) (State × List Effect) :=
  match runRxLoopF 3 s with
  | Except.error e => Except.error e
  | Except.ok (s1, e1) =>
      let r := runTxLoopF 2 s1
      Except.ok (r.1, e1 ++ r.2)

/-- Poll result, from `core::task::Poll`. -/
inductive Poll (α : Type) where
  | Ready (a : α)
  | Pending
deriving DecidableEq

/-- The read-side fill-buffer operation `BufferedUarte::poll_fill_buf`:
returns the contiguous readable region if non-empty; otherwise requests an
early stop when the RX state is `ReceivingReady`, registers the caller as
the RX waiter, and reports `Pending`. -/
def poll_fill_buf (s : State) : State × List Effect × Poll (List Nat) :=
  let buf := s.rx.pop_buf
  if buf.length ≠ 0 then (s, [], Poll.Ready buf)
  else
    let r :=
      if s.rx_state = RxState.ReceivingReady then
        ({ s with rx_state := RxState.Stopping }, [Effect.stopRx])
      else (s, [])
    ({ r.1 with rx_waker := true }, r.2, Poll.Pending)

/-- The read-side `BufferedUarte::consume`: releases `amt` bytes from the RX
ring buffer and pends the interrupt. -/
def consume (s : State) (amt : Nat) : State × List Effect :=
  ({ s with rx := s.rx.pop amt }, [Effect.pendIrq])

/-- The write-side `BufferedUarte::poll_write`: if the contiguous writable
region of the TX ring buffer is empty, registers the TX waiter and reports
`Pending`; otherwise copies `min(available, input.length)` bytes of the
input prefix in, commits them, pends the interrupt and reports the count. -/
def poll_write (s : State) (input : List Nat) : State × List Effect × Poll Nat :=
  let avail := s.tx.push_buf_len
  if avail = 0 then ({ s with tx_waker := true }, [], Poll.Pending)
  else
    let n := min avail input.length
    ({ s with tx := s.tx.write_push (input.take n) }, [Effect.pendIrq], Poll.Ready n)

/-- The destructor `impl Drop for BufferedUarte`: its body is `todo!()`, an
unconditional abort — no stop command is issued and no completion is awaited
before the buffers are released. -/
def dropUarte (s : State) : Except (State × List Effect) Unit :=
  Except.error (s, [])

deriving instance DecidableEq for Except

/-! ### Helper lemmas about list writes -/

theorem writeAt_length (bs : List Nat) : ∀ (l : List Nat) (pos : Nat),
    (writeAt l pos bs).length = l.length := by
  induction bs with
  | nil => intro l pos; rfl
  | cons b bs ih => intro l pos; rw [writeAt, ih, List.length_set]

theorem getD_set_ne (l : List Nat) (b : Nat) : ∀ i j, i ≠ j →
    (l.set i b).getD j 0 = l.getD j 0 := by
  induction l with
  | nil => intro i j _; simp [List.set]
  | cons a t ih =>
    intro i j h
    cases i with
    | zero =>
      cases j with
      | zero => exact absurd rfl h
      | succ j => simp [List.set]
    | succ i =>
      cases j with
      | zero => simp [List.set]
      | succ j => simpa [List.set] using ih i j (by omega)

theorem getD_set_self (l : List Nat) (b : Nat) : ∀ i, i < l.length →
    (l.set i b).getD i 0 = b := by
  induction l with
  | nil => intro i h; simp at h
  | cons a t ih =>
    intro i h
    cases i with
    | zero => simp [List.set]
    | succ i => simpa [List.set] using ih i (by simpa using h)

theorem writeAt_getD_lt (bs : List Nat) : ∀ (l : List Nat) (pos k : Nat), k < pos →
    (writeAt l pos bs).getD k 0 = l.getD k 0 := by
  induction bs with
  | nil => intro l pos k _; rfl
  | cons b bs ih =>
    intro l pos k hk
    rw [writeAt, ih _ _ _ (by omega), getD_set_ne _ _ _ _ (by omega)]

theorem writeAt_getD_ge (bs : List Nat) : ∀ (l : List Nat) (pos k : Nat),
    pos + bs.length ≤ k → (writeAt l pos bs).getD k 0 = l.getD k 0 := by
  induction bs with
  | nil => intro l pos k _; rfl
  | cons b bs ih =>
    intro l pos k hk
    simp only [List.length_cons] at hk
    rw [writeAt, ih _ _ _ (by omega), getD_set_ne _ _ _ _ (by omega)]

theorem writeAt_getD_in (bs : List Nat) : ∀ (l : List Nat) (pos j : Nat),
    pos + bs.length ≤ l.length → j < bs.length →
    (writeAt l pos bs).getD (pos + j) 0 = bs.getD j 0 := by
  induction bs with
  | nil => intro l pos j _ hj; simp at hj
  | cons b bs ih =>
    intro l pos j hlen hj
    cases j with
    | zero =>
      simp only [List.length_cons] at hlen
      rw [writeAt]
      simp only [Nat.add_zero]
      rw [writeAt_getD_lt _ _ _ _ (by omega), getD_set_self _ _ _ (by omega)]
      rfl
    | succ j =>
      simp only [List.length_cons] at hlen hj
      have h1 : pos + (j + 1) = (pos + 1) + j := by omega
      rw [writeAt, h1, ih _ _ _ (by rw [List.length_set]; omega) (by omega)]
      rfl

theorem mod_two_span (a c : Nat) (h : a < 2 * c) :
    a % c = if a < c then a else a - c := by
  split
  · exact Nat.mod_eq_of_lt (by assumption)
  · rename_i hge
    rw [Nat.mod_eq_sub_mod (by omega), Nat.mod_eq_of_lt (by omega)]

theorem getD_range_map (l : List Nat) :
    (List.range l.length).map (fun j => l.getD j 0) = l := by
  induction l with
  | nil => rfl
  | cons a t ih =>
    rw [List.length_cons, List.range_succ_eq_map]
    simp only [List.map_cons, List.map_map]
    rw [show (fun j => (a :: t).getD j 0) ∘ (· + 1) = fun j => t.getD j 0 from rfl]
    rw [ih]
    rfl

/-! ### Ring buffer: committing a contiguous write appends to the contents -/

theorem contents_write_push (rb : RingBuffer) (bs : List Nat)
    (hwf : rb.WF) (hn : bs.length ≤ rb.push_buf_len) :
    (rb.write_push bs).contents = rb.contents ++ bs := by
  obtain ⟨hbuf, hst, hlen⟩ := hwf
  have hcap : 0 < rb.cap := by omega
  have hw_lt : rb.wpos < rb.cap := Nat.mod_lt _ hcap
  have hn1 : bs.length ≤ rb.cap - rb.len :=
    le_trans hn (min_le_left _ _)
  have hn2 : bs.length ≤ rb.cap - rb.wpos :=
    le_trans hn (min_le_right _ _)
  have hwdef : rb.wpos =
      if rb.start + rb.len < rb.cap then rb.start + rb.len
      else rb.start + rb.len - rb.cap := by
    rw [RingBuffer.wpos]; exact mod_two_span _ _ (by omega)
  show (List.range (rb.len + bs.length)).map
      (fun i => (writeAt rb.buf rb.wpos bs).getD ((rb.start + i) % rb.cap) 0)
    = rb.contents ++ bs
  rw [List.range_add, List.map_append, List.map_map]
  congr 1
  · rw [RingBuffer.contents]
    apply List.map_congr_left
    intro i hi
    have hilt : i < rb.len := List.mem_range.mp hi
    have hr : (rb.start + i) % rb.cap =
        if rb.start + i < rb.cap then rb.start + i else rb.start + i - rb.cap :=
      mod_two_span _ _ (by omega)
    by_cases h1 : rb.start + i < rb.cap
    · rw [if_pos h1] at hr
      rw [hr]
      by_cases h2 : rb.start + rb.len < rb.cap
      · rw [if_pos h2] at hwdef
        exact writeAt_getD_lt _ _ _ _ (by omega)
      · rw [if_neg h2] at hwdef
        exact writeAt_getD_ge _ _ _ _ (by omega)
    · rw [if_neg h1] at hr
      rw [hr]
      by_cases h2 : rb.start + rb.len < rb.cap
      · omega
      · rw [if_neg h2] at hwdef
        exact writeAt_getD_lt _ _ _ _ (by omega)
  · have hpt : ∀ j ∈ List.range bs.length,
        ((fun i => (writeAt rb.buf rb.wpos bs).getD ((rb.start + i) % rb.cap) 0) ∘
          (rb.len + ·)) j = bs.getD j 0 := by
      intro j hj
      have hjlt : j < bs.length := List.mem_range.mp hj
      have hmod : (rb.start + (rb.len + j)) % rb.cap = rb.wpos + j := by
        have h1 : rb.start + (rb.len + j) = (rb.start + rb.len) + j := by omega
        rw [h1, Nat.add_mod, Nat.mod_eq_of_lt (show j < rb.cap by omega),
            ← RingBuffer.wpos, Nat.mod_eq_of_lt (show rb.wpos + j < rb.cap by omega)]
      show (writeAt rb.buf rb.wpos bs).getD ((rb.start + (rb.len + j)) % rb.cap) 0 = bs.getD j 0
      rw [hmod]
      exact writeAt_getD_in _ _ _ _ (by omega) hjlt
    rw [List.map_congr_left hpt, getD_range_map]

/-! ### The interrupt loops reach their fixed point within the given fuel -/

/-- Number of set RX event flags; strictly decreases across every
`more_work = true` iteration of the RX loop. -/
def rxFlagCount (s : State) : Nat :=
  (if s.hw.events_rxdrdy then 1 else 0) + (if s.hw.events_endrx then 1 else 0)

/-- Number of set TX event flags. -/
def txFlagCount (s : State) : Nat :=
  if s.hw.events_endtx then 1 else 0

theorem rxStep_more_decreases (s s' : State) (effs : List Effect)
    (h : rxStep s = Except.ok (s', effs, true)) : rxFlagCount s' < rxFlagCount s := by
  obtain ⟨⟨rdy, erx, etx, amt⟩, rx, rxs, rxw, tx, txs, txw⟩ := s
  cases rxs <;> cases rdy <;> cases erx <;> cases rxw <;>
    simp [rxStep, doWakeRx] at h <;>
    (try split at h) <;> (try obtain ⟨rfl, rfl⟩ := h.symm) <;>
    simp [rxFlagCount]

theorem txStep_more_decreases (s s' : State) (effs : List Effect)
    (h : txStep s = (s', effs, true)) : txFlagCount s' < txFlagCount s := by
  obtain ⟨⟨rdy, erx, etx, amt⟩, rx, rxs, rxw, tx, txs, txw⟩ := s
  cases txs <;> cases etx <;> cases txw <;>
    simp [txStep, doWakeTx] at h <;>
    (try split at h) <;> (try obtain ⟨rfl, rfl⟩ := h.symm) <;>
    simp [txFlagCount]

theorem rxLoop_stable_aux : ∀ fuel s, rxFlagCount s < fuel →
    ∀ m, fuel ≤ m → runRxLoopF m s = runRxLoopF fuel s := by
  intro fuel
  induction fuel with
  | zero => intro s h; omega
  | succ k ih =>
    intro s h m hm
    obtain ⟨m', rfl⟩ : ∃ m', m = m' + 1 := ⟨m - 1, by omega⟩
    rw [runRxLoopF, runRxLoopF]
    cases hstep : rxStep s with
    | error e => rfl
    | ok v =>
      obtain ⟨s', effs, mw⟩ := v
      cases mw with
      | false => rfl
      | true =>
        have hdec := rxStep_more_decreases s s' effs hstep
        dsimp only
        rw [ih s' (by omega) m' (by omega)]

theorem txLoop_stable_aux : ∀ fuel s, txFlagCount s < fuel →
    ∀ m, fuel ≤ m → runTxLoopF m s = runTxLoopF fuel s := by
  intro fuel
  induction fuel with
  | zero => intro s h; omega
  | succ k ih =>
    intro s h m hm
    obtain ⟨m', rfl⟩ : ∃ m', m = m' + 1 := ⟨m - 1, by omega⟩
    rw [runTxLoopF, runTxLoopF]
    rcases hstep : txStep s with ⟨s', effs, mw⟩
    cases mw with
    | false => rfl
    | true =>
      have hdec := txStep_more_decreases s s' effs hstep
      dsimp only
      rw [ih s' (by omega) m' (by omega)]

/-- Fuel 3 computes the exact fixed point of the RX `while more_work` loop:
more fuel never changes the result. -/
theorem rxLoop_stable (s : State) (m : Nat) (hm : 3 ≤ m) :
    runRxLoopF m s = runRxLoopF 3 s := by
  have hc : rxFlagCount s < 3 := by
    unfold rxFlagCount; split <;> split <;> omega
  exact rxLoop_stable_aux 3 s hc m hm

/-- Fuel 2 computes the exact fixed point of the TX `while more_work` loop. -/
theorem txLoop_stable (s : State) (m : Nat) (hm : 2 ≤ m) :
    runTxLoopF m s = runTxLoopF 2 s := by
  have hc : txFlagCount s < 2 := by
    unfold txFlagCount; split <;> omega
  exact txLoop_stable_aux 2 s hc m hm

/-! ### Framing: the RX machinery never touches TX state, and conversely -/

theorem rxStep_frame (s s' : State) (effs : List Effect) (mw : Bool)
    (h : rxStep s = Except.ok (s', effs, mw)) :
    s'.tx = s.tx ∧ s'.tx_state = s.tx_state ∧ s'.tx_waker = s.tx_waker ∧
    s'.hw.events_endtx = s.hw.events_endtx := by
  obtain ⟨⟨rdy, erx, etx, amt⟩, rx, rxs, rxw, tx, txs, txw⟩ := s
  cases rxs <;> cases rdy <;> cases erx <;> cases rxw <;>
    simp [rxStep, doWakeRx] at h <;>
    (try split at h) <;>
    (try simp only [Except.ok.injEq, Prod.mk.injEq] at h) <;>
    (try (obtain ⟨h1, h2, h3⟩ := h; subst h1; subst h2; subst h3)) <;>
    simp

theorem txStep_frame (s : State) :
    ((txStep s).1.rx = s.rx ∧ (txStep s).1.rx_state = s.rx_state ∧
     (txStep s).1.rx_waker = s.rx_waker ∧
     (txStep s).1.hw.events_rxdrdy = s.hw.events_rxdrdy ∧
     (txStep s).1.hw.events_endrx = s.hw.events_endrx) := by
  obtain ⟨⟨rdy, erx, etx, amt⟩, rx, rxs, rxw, tx, txs, txw⟩ := s
  cases txs <;> cases etx <;> cases txw <;>
    simp [txStep, doWakeTx] <;> (try split) <;> simp

theorem runRxLoopF_frame (fuel : Nat) : ∀ s s' effs,
    runRxLoopF fuel s = Except.ok (s', effs) →
    s'.tx = s.tx ∧ s'.tx_state = s.tx_state ∧ s'.tx_waker = s.tx_waker ∧
    s'.hw.events_endtx = s.hw.events_endtx := by
  induction fuel with
  | zero =>
    intro s s' effs h
    rw [runRxLoopF] at h
    simp at h
    obtain ⟨rfl, rfl⟩ := h.symm
    exact ⟨rfl, rfl, rfl, rfl⟩
  | succ k ih =>
    intro s s' effs h
    rw [runRxLoopF] at h
    cases hstep : rxStep s with
    | error e => rw [hstep] at h; simp at h
    | ok v =>
      obtain ⟨t, es, mw⟩ := v
      rw [hstep] at h
      have hframe := rxStep_frame s t es mw hstep
      cases mw with
      | false =>
        simp at h
        obtain ⟨rfl, rfl⟩ := h.symm
        exact hframe
      | true =>
        dsimp only at h
        cases hrec : runRxLoopF k t with
        | error e => rw [hrec] at h; simp at h
        | ok w =>
          obtain ⟨t2, es2⟩ := w
          rw [hrec] at h
          simp at h
          obtain ⟨rfl, rfl⟩ := h.symm
          have hr := ih t t2 es2 hrec
          exact ⟨hr.1.trans hframe.1, hr.2.1.trans hframe.2.1,
                 hr.2.2.1.trans hframe.2.2.1, hr.2.2.2.trans hframe.2.2.2⟩

theorem runTxLoopF_frame (fuel : Nat) : ∀ s,
    (runTxLoopF fuel s).1.rx = s.rx ∧ (runTxLoopF fuel s).1.rx_state = s.rx_state ∧
    (runTxLoopF fuel s).1.rx_waker = s.rx_waker := by
  induction fuel with
  | zero => intro s; exact ⟨rfl, rfl, rfl⟩
  | succ k ih =>
    intro s
    rw [runTxLoopF]
    rcases hstep : txStep s with ⟨t, es, mw⟩
    have hframe := txStep_frame s
    rw [hstep] at hframe
    cases mw with
    | false => exact ⟨hframe.1, hframe.2.1, hframe.2.2.1⟩
    | true =>
      dsimp only
      have hr := ih t
      exact ⟨hr.1.trans hframe.1, hr.2.1.trans hframe.2.1, hr.2.2.trans hframe.2.2.1⟩

/-! ### Wake discipline of the interrupt loops -/

theorem rxStep_wake_inv (s s' : State) (effs : List Effect) (mw : Bool)
    (h : rxStep s = Except.ok (s', effs, mw)) (hreg : s.rx_waker = true) :
    Effect.wakeRx ∈ effs ∨ (s'.rx_waker = true ∧ s'.rx.len = s.rx.len) := by
  obtain ⟨⟨rdy, erx, etx, amt⟩, rx, rxs, rxw, tx, txs, txw⟩ := s
  subst hreg
  cases rxs <;> cases rdy <;> cases erx <;>
    simp [rxStep, doWakeRx] at h <;>
    (try split at h) <;>
    (try simp only [Except.ok.injEq, Prod.mk.injEq] at h) <;>
    (try (obtain ⟨h1, h2, h3⟩ := h; subst h1; subst h2; subst h3)) <;>
    simp

theorem runRxLoopF_wake_inv (fuel : Nat) : ∀ s s' effs,
    runRxLoopF fuel s = Except.ok (s', effs) → s.rx_waker = true →
    Effect.wakeRx ∈ effs ∨ (s'.rx_waker = true ∧ s'.rx.len = s.rx.len) := by
  induction fuel with
  | zero =>
    intro s s' effs h hreg
    rw [runRxLoopF] at h
    simp at h
    obtain ⟨rfl, rfl⟩ := h
    right; exact ⟨hreg, rfl⟩
  | succ k ih =>
    intro s s' effs h hreg
    rw [runRxLoopF] at h
    cases hstep : rxStep s with
    | error e => rw [hstep] at h; simp at h
    | ok v =>
      obtain ⟨t, es, mw⟩ := v
      rw [hstep] at h
      cases mw with
      | false =>
        simp at h
        obtain ⟨rfl, rfl⟩ := h
        exact rxStep_wake_inv _ _ _ _ hstep hreg
      | true =>
        dsimp only at h
        cases hrec : runRxLoopF k t with
        | error e => rw [hrec] at h; simp at h
        | ok w =>
          obtain ⟨t2, es2⟩ := w
          rw [hrec] at h
          simp at h
          obtain ⟨rfl, rfl⟩ := h
          rcases rxStep_wake_inv _ _ _ _ hstep hreg with hw1 | ⟨hreg2, hlen⟩
          · left; exact List.mem_append.mpr (Or.inl hw1)
          · rcases ih t t2 es2 hrec hreg2 with hw2 | ⟨hreg3, hlen2⟩
            · left; exact List.mem_append.mpr (Or.inr hw2)
            · right; exact ⟨hreg3, hlen2.trans hlen⟩

theorem txStep_wake_inv (s : State) (hreg : s.tx_waker = true) :
    Effect.wakeTx ∈ (txStep s).2.1 ∨
    ((txStep s).1.tx_waker = true ∧ (txStep s).1.tx.len = s.tx.len) := by
  obtain ⟨⟨rdy, erx, etx, amt⟩, rx, rxs, rxw, tx, txs, txw⟩ := s
  subst hreg
  cases txs <;> cases etx <;>
    simp [txStep, doWakeTx] <;> (try split) <;> simp

theorem runTxLoopF_wake_inv (fuel : Nat) : ∀ s, s.tx_waker = true →
    Effect.wakeTx ∈ (runTxLoopF fuel s).2 ∨
    ((runTxLoopF fuel s).1.tx_waker = true ∧ (runTxLoopF fuel s).1.tx.len = s.tx.len) := by
  induction fuel with
  | zero => intro s hreg; right; exact ⟨hreg, rfl⟩
  | succ k ih =>
    intro s hreg
    rw [runTxLoopF]
    rcases hstep : txStep s with ⟨t, es, mw⟩
    have hsw := txStep_wake_inv s hreg
    rw [hstep] at hsw
    cases mw with
    | false => exact hsw
    | true =>
      dsimp only
      rcases hsw with hw1 | ⟨hreg2, hlen⟩
      · left; exact List.mem_append.mpr (Or.inl hw1)
      · rcases ih t hreg2 with hw2 | ⟨hreg3, hlen2⟩
        · left; exact List.mem_append.mpr (Or.inr hw2)
        · right; exact ⟨hreg3, hlen2.trans hlen⟩

/-! ### Concrete states used by the witnesses -/

/-- An all-zero ring buffer of capacity `cap` with `fill` filled bytes. -/
def rbN (cap fill : Nat) : RingBuffer :=
  { cap := cap, buf := List.replicate cap 0, start := 0, len := fill }

/-- Builds a driver state from its components. -/
def mkSt (rdy erx etx : Bool) (amt : Nat) (rx : RingBuffer) (rxs : RxState)
    (rxw : Bool) (tx : RingBuffer) (txs : TxState) (txw : Bool) : State :=
  { hw := { events_rxdrdy := rdy, events_endrx := erx, events_endtx := etx, rxd_amount := amt }
    rx := rx, rx_state := rxs, rx_waker := rxw
    tx := tx, tx_state := txs, tx_waker := txw }

/-! ### Claims -/

/-- C1: if the interrupt step function observes `endrx` while the RX state
machine is in `Idle`, it deterministically takes the fatal path (the
`panic!` modelled as `Except.error`), and beyond that performs no state
mutation: no bytes are committed to the RX ring buffer, no state transition
occurs, and no waker is woken (the effect trace is empty). -/
theorem C1_idle_endrx_fatal (s : State) (hs : s.rx_state = RxState.Idle)
    (he : s.hw.events_endrx = true) :
    ∃ s' effs, on_interrupt s = Except.error (s', effs) ∧
      s'.rx = s.rx ∧ s'.rx_state = RxState.Idle ∧
      s'.tx = s.tx ∧ s'.tx_state = s.tx_state ∧
      s'.rx_waker = s.rx_waker ∧ s'.tx_waker = s.tx_waker ∧
      Effect.wakeRx ∉ effs ∧ Effect.wakeTx ∉ effs ∧ effs = [] := by
  obtain ⟨⟨rdy, erx, etx, amt⟩, rx, rxs, rxw, tx, txs, txw⟩ := s
  simp only at hs he
  subst hs; subst he
  cases rdy <;>
    simp [on_interrupt, runRxLoopF, rxStep] <;>
    exact ⟨_, [], ⟨rfl, rfl⟩, by simp⟩

theorem C1_witness :
    (mkSt false true false 0 (rbN 4 0) RxState.Idle false (rbN 4 0) TxState.Idle false).rx_state
        = RxState.Idle ∧
    (mkSt false true false 0 (rbN 4 0) RxState.Idle false (rbN 4 0) TxState.Idle
        false).hw.events_endrx = true ∧
    (∃ s' effs,
      on_interrupt (mkSt false true false 0 (rbN 4 0) RxState.Idle false (rbN 4 0)
          TxState.Idle false) = Except.error (s', effs) ∧
      s'.rx = (rbN 4 0) ∧ s'.rx_state = RxState.Idle ∧
      s'.tx = (rbN 4 0) ∧ s'.tx_state = TxState.Idle ∧
      s'.rx_waker = false ∧ s'.tx_waker = false ∧
      Effect.wakeRx ∉ effs ∧ Effect.wakeTx ∉ effs ∧ effs = []) :=
  ⟨rfl, rfl, C1_idle_endrx_fatal _ rfl rfl⟩

/-- C2: `poll_fill_buf` returns `Ready` with exactly the contiguous readable
region of the RX ring buffer when it is non-empty (and changes nothing);
when it is empty, it registers the caller as the RX waiter and returns
`Pending`, and exactly when the RX state is `ReceivingReady` it sets the
state to `Stopping` and issues the stop-receive command. -/
theorem C2_poll_fill_buf_spec (s : State) :
    (s.rx.pop_buf ≠ [] →
      poll_fill_buf s = (s, [], Poll.Ready s.rx.pop_buf)) ∧
    (s.rx.pop_buf = [] →
      ∃ s' effs, poll_fill_buf s = (s', effs, Poll.Pending) ∧
        s'.rx_waker = true ∧ s'.rx = s.rx ∧ s'.hw = s.hw ∧
        s'.tx = s.tx ∧ s'.tx_state = s.tx_state ∧ s'.tx_waker = s.tx_waker ∧
        (s.rx_state = RxState.ReceivingReady →
          s'.rx_state = RxState.Stopping ∧ effs = [Effect.stopRx]) ∧
        (s.rx_state ≠ RxState.ReceivingReady →
          s'.rx_state = s.rx_state ∧ effs = [])) := by
  constructor
  · intro hne
    have hlen : s.rx.pop_buf.length ≠ 0 := by
      intro h; exact hne (List.length_eq_zero.mp h)
    simp [poll_fill_buf, hlen]
  · intro hemp
    have hlen : ¬s.rx.pop_buf.length ≠ 0 := by simp [hemp]
    by_cases hrr : s.rx_state = RxState.ReceivingReady
    · refine ⟨{ s with rx_state := RxState.Stopping, rx_waker := true }, [Effect.stopRx],
        ?_, rfl, rfl, rfl, rfl, rfl, rfl, fun _ => ⟨rfl, rfl⟩, fun hn => absurd hrr hn⟩
      simp [poll_fill_buf, hlen, hrr]
    · refine ⟨{ s with rx_waker := true }, [],
        ?_, rfl, rfl, rfl, rfl, rfl, rfl, fun h => absurd h hrr, fun _ => ⟨rfl, rfl⟩⟩
      simp [poll_fill_buf, hlen, hrr]

theorem C2_witness :
    (poll_fill_buf (mkSt false false false 0 (rbN 4 2) RxState.Receiving false (rbN 4 0)
        TxState.Idle false) =
      (mkSt false false false 0 (rbN 4 2) RxState.Receiving false (rbN 4 0)
        TxState.Idle false, [],
       Poll.Ready (mkSt false false false 0 (rbN 4 2) RxState.Receiving false (rbN 4 0)
        TxState.Idle false).rx.pop_buf)) ∧
    (∃ s' effs,
      poll_fill_buf (mkSt false false false 0 (rbN 4 0) RxState.ReceivingReady false (rbN 4 0)
          TxState.Idle false) = (s', effs, Poll.Pending) ∧
      s'.rx_waker = true ∧ s'.rx = rbN 4 0 ∧
      s'.hw = { events_rxdrdy := false, events_endrx := false, events_endtx := false,
                rxd_amount := 0 } ∧
      s'.tx = rbN 4 0 ∧ s'.tx_state = TxState.Idle ∧ s'.tx_waker = false ∧
      (RxState.ReceivingReady = RxState.ReceivingReady →
        s'.rx_state = RxState.Stopping ∧ effs = [Effect.stopRx]) ∧
      (RxState.ReceivingReady ≠ RxState.ReceivingReady →
        s'.rx_state = RxState.ReceivingReady ∧ effs = [])) :=
  ⟨(C2_poll_fill_buf_spec _).1 (by decide),
   (C2_poll_fill_buf_spec _).2 (by decide)⟩
/-- C3: `poll_write` with input of length `L`: when the contiguous writable
region of the TX ring buffer is empty, it registers the TX waiter and
returns `Pending`; otherwise it copies exactly `n = min(available, L)` bytes
of the input prefix into the buffer, commits them (the filled content is
extended by exactly that prefix), pends the interrupt, and returns
`Ready n`, where `n` may be less than `L`. -/
theorem C3_poll_write_spec (s : State) (input : List Nat) (hwf : s.tx.WF) :
    (s.tx.push_buf_len = 0 →
      poll_write s input = ({ s with tx_waker := true }, [], Poll.Pending)) ∧
    (s.tx.push_buf_len ≠ 0 →
      ∃ s', poll_write s input =
          (s', [Effect.pendIrq], Poll.Ready (min s.tx.push_buf_len input.length)) ∧
        min s.tx.push_buf_len input.length ≤ input.length ∧
        s'.tx.contents = s.tx.contents ++
          input.take (min s.tx.push_buf_len input.length) ∧
        s'.tx.len = s.tx.len + min s.tx.push_buf_len input.length ∧
        s'.rx = s.rx ∧ s'.rx_state = s.rx_state ∧ s'.rx_waker = s.rx_waker ∧
        s'.hw = s.hw ∧ s'.tx_state = s.tx_state ∧ s'.tx_waker = s.tx_waker) := by
  constructor
  · intro h0
    simp [poll_write, h0]
  · intro hne
    have hlen : (input.take (min s.tx.push_buf_len input.length)).length =
        min s.tx.push_buf_len input.length := by
      rw [List.length_take]
      omega
    refine ⟨{ s with
        tx := (s.tx.write_push (input.take (min s.tx.push_buf_len input.length))) },
      ?_, min_le_right _ _, ?_, ?_, rfl, rfl, rfl, rfl, rfl, rfl⟩
    · simp [poll_write, hne]
    · show (s.tx.write_push _).contents = _
      rw [contents_write_push s.tx _ hwf (by rw [hlen]; exact min_le_left _ _)]
    · show (s.tx.write_push _).len = _
      rw [RingBuffer.write_push, hlen]

theorem C3_witness :
    ((rbN 4 3).WF) ∧
    ((rbN 4 3).push_buf_len = 0 → True) ∧
    (∃ s', poll_write (mkSt false false false 0 (rbN 4 0) RxState.Idle false (rbN 4 3)
          TxState.Idle false) [7, 8, 9] =
        (s', [Effect.pendIrq], Poll.Ready (min (rbN 4 3).push_buf_len 3)) ∧
      min (rbN 4 3).push_buf_len 3 ≤ 3 ∧
      s'.tx.contents = (rbN 4 3).contents ++ [7, 8, 9].take (min (rbN 4 3).push_buf_len 3) ∧
      s'.tx.len = (rbN 4 3).len + min (rbN 4 3).push_buf_len 3 ∧
      s'.rx = rbN 4 0 ∧ s'.rx_state = RxState.Idle ∧ s'.rx_waker = false ∧
      s'.hw = { events_rxdrdy := false, events_endrx := false, events_endtx := false,
                rxd_amount := 0 } ∧
      s'.tx_state = TxState.Idle ∧ s'.tx_waker = false) :=
  ⟨by simp [RingBuffer.WF, rbN], fun _ => trivial,
   by
    have h := (C3_poll_write_spec
      (mkSt false false false 0 (rbN 4 0) RxState.Idle false (rbN 4 3) TxState.Idle false)
      [7, 8, 9] (by simp [RingBuffer.WF, mkSt, rbN])).2 (by decide)
    exact h⟩

/-- C4: the receive transition table.  In `Receiving`, a signaled `rxdrdy`
disables the first-byte interrupt source (`intenclr`), acknowledges the
notification, wakes the RX waiter (when one is registered), and moves to
`ReceivingReady`.  In `ReceivingReady` or `Stopping`, a signaled `endrx`
reads the transferred count from the amount register, commits exactly that
many bytes into the RX ring buffer, wakes the RX waiter (when registered),
and moves to `Idle`. -/
theorem C4_rx_transitions (s : State) :
    (s.rx_state = RxState.Receiving → s.hw.events_rxdrdy = true →
      ∃ s' effs, rxStep s = Except.ok (s', effs, true) ∧
        Effect.intenclrRxdrdy ∈ effs ∧
        s'.hw.events_rxdrdy = false ∧
        (s.rx_waker = true → Effect.wakeRx ∈ effs) ∧
        s'.rx_state = RxState.ReceivingReady ∧ s'.rx = s.rx) ∧
    ((s.rx_state = RxState.ReceivingReady ∨ s.rx_state = RxState.Stopping) →
      s.hw.events_endrx = true →
      ∃ s' effs, rxStep s = Except.ok (s', effs, true) ∧
        s'.rx.len = s.rx.len + s.hw.rxd_amount ∧
        s'.rx.cap = s.rx.cap ∧ s'.rx.start = s.rx.start ∧ s'.rx.buf = s.rx.buf ∧
        s'.hw.events_endrx = false ∧
        (s.rx_waker = true → Effect.wakeRx ∈ effs) ∧
        s'.rx_state = RxState.Idle) := by
  obtain ⟨⟨rdy, erx, etx, amt⟩, rx, rxs, rxw, tx, txs, txw⟩ := s
  constructor
  · intro hs hr
    simp only at hs hr
    subst hs; subst hr
    cases rxw <;> simp [rxStep, doWakeRx] <;>
      exact ⟨_, _, ⟨rfl, rfl⟩, by simp⟩
  · intro hs hr
    simp only at hr
    subst hr
    rcases hs with hs | hs <;> simp only at hs <;> subst hs <;>
      cases rdy <;> cases rxw <;>
      simp [rxStep, doWakeRx, RingBuffer.push] <;>
      exact ⟨_, _, ⟨rfl, rfl⟩, by simp⟩

theorem C4_witness :
    ((mkSt true false false 0 (rbN 4 0) RxState.Receiving true (rbN 4 0) TxState.Idle
        false).rx_state = RxState.Receiving ∧
      (∃ s' effs,
        rxStep (mkSt true false false 0 (rbN 4 0) RxState.Receiving true (rbN 4 0)
          TxState.Idle false) = Except.ok (s', effs, true) ∧
        Effect.intenclrRxdrdy ∈ effs ∧
        s'.hw.events_rxdrdy = false ∧
        (true = true → Effect.wakeRx ∈ effs) ∧
        s'.rx_state = RxState.ReceivingReady ∧ s'.rx = rbN 4 0)) ∧
    ((mkSt false true false 2 (rbN 4 1) RxState.Stopping true (rbN 4 0) TxState.Idle
        false).hw.events_endrx = true ∧
      (∃ s' effs,
        rxStep (mkSt false true false 2 (rbN 4 1) RxState.Stopping true (rbN 4 0)
          TxState.Idle false) = Except.ok (s', effs, true) ∧
        s'.rx.len = (rbN 4 1).len + 2 ∧
        s'.rx.cap = 4 ∧ s'.rx.start = 0 ∧ s'.rx.buf = (rbN 4 1).buf ∧
        s'.hw.events_endrx = false ∧
        (true = true → Effect.wakeRx ∈ effs) ∧
        s'.rx_state = RxState.Idle)) :=
  ⟨⟨rfl, (C4_rx_transitions _).1 rfl rfl⟩,
   ⟨rfl, (C4_rx_transitions _).2 (Or.inr rfl) rfl⟩⟩

/-- C5: the transmit transition table.  In `Idle` with a non-empty contiguous
filled region of length `n`, the DMA source pointer and length are
programmed to that region, the start-transmit command is issued, and the
state becomes `Transmitting n`; in `Idle` with no filled bytes nothing
happens; in `Transmitting n`, a signaled `endtx` releases exactly `n` bytes
from the TX ring buffer, wakes the TX waiter (when registered), and moves
back to `Idle`. -/
theorem C5_tx_transitions (s : State) :
    (s.tx_state = TxState.Idle → s.tx.pop_buf_len ≠ 0 →
      txStep s = ({ s with tx_state := TxState.Transmitting s.tx.pop_buf_len },
        [Effect.setTxdPtr, Effect.setTxdMaxcnt s.tx.pop_buf_len, Effect.startTx],
        false)) ∧
    (s.tx_state = TxState.Idle → s.tx.pop_buf_len = 0 →
      txStep s = (s, [], false)) ∧
    (∀ n, s.tx_state = TxState.Transmitting n → s.hw.events_endtx = true →
      ∃ s' effs, txStep s = (s', effs, true) ∧
        s'.tx = s.tx.pop n ∧
        (n ≤ s.tx.len → s'.tx.len + n = s.tx.len) ∧
        (s.tx_waker = true → Effect.wakeTx ∈ effs) ∧
        s'.tx_state = TxState.Idle ∧ s'.hw.events_endtx = false ∧
        s'.rx = s.rx ∧ s'.rx_state = s.rx_state) := by
  obtain ⟨⟨rdy, erx, etx, amt⟩, rx, rxs, rxw, tx, txs, txw⟩ := s
  refine ⟨?_, ?_, ?_⟩
  · intro hs hn
    simp only at hs
    subst hs
    simp [txStep, hn]
  · intro hs hn
    simp only at hs
    subst hs
    simp [txStep, hn]
  · intro n hs he
    simp only at hs he
    subst hs; subst he
    cases txw <;>
      simp [txStep, doWakeTx, RingBuffer.pop] <;>
      first
      | (intro h; omega)
      | exact ⟨_, _, ⟨rfl, rfl⟩, rfl, fun h => by simp; omega, by simp, rfl, rfl, rfl, rfl⟩

theorem C5_witness :
    ((mkSt false false false 0 (rbN 4 0) RxState.Idle false (rbN 4 3) TxState.Idle
        false).tx.pop_buf_len ≠ 0 ∧
      txStep (mkSt false false false 0 (rbN 4 0) RxState.Idle false (rbN 4 3)
          TxState.Idle false) =
        ({ mkSt false false false 0 (rbN 4 0) RxState.Idle false (rbN 4 3)
            TxState.Idle false with tx_state := TxState.Transmitting 3 },
         [Effect.setTxdPtr, Effect.setTxdMaxcnt 3, Effect.startTx], false)) ∧
    ((mkSt false false false 0 (rbN 4 0) RxState.Idle false (rbN 4 0) TxState.Idle
        false).tx.pop_buf_len = 0 ∧
      txStep (mkSt false false false 0 (rbN 4 0) RxState.Idle false (rbN 4 0)
          TxState.Idle false) =
        (mkSt false false false 0 (rbN 4 0) RxState.Idle false (rbN 4 0)
          TxState.Idle false, [], false)) ∧
    (∃ s' effs, txStep (mkSt false false true 0 (rbN 4 0) RxState.Idle false (rbN 4 3)
          (TxState.Transmitting 3) true) = (s', effs, true) ∧
      s'.tx = (rbN 4 3).pop 3 ∧
      (3 ≤ (rbN 4 3).len → s'.tx.len + 3 = (rbN 4 3).len) ∧
      (true = true → Effect.wakeTx ∈ effs) ∧
      s'.tx_state = TxState.Idle ∧ s'.hw.events_endtx = false ∧
      s'.rx = rbN 4 0 ∧ s'.rx_state = RxState.Idle) :=
  ⟨⟨by decide, by
      have h := (C5_tx_transitions (mkSt false false false 0 (rbN 4 0) RxState.Idle false
        (rbN 4 3) TxState.Idle false)).1 rfl (by decide)
      exact h⟩,
   ⟨by decide, (C5_tx_transitions _).2.1 rfl (by decide)⟩,
   (C5_tx_transitions _).2.2 3 rfl rfl⟩

/-- C6: the destructor (`impl Drop for BufferedUarte`).  The claim requires it
to request a stop of any in-flight DMA transfer and wait for confirmation
before releasing the buffers; the source body is `todo!()`, an unconditional
panic that issues no stop command and waits for nothing.  Evaluated here at a
state with an in-flight receive transfer: the destructor aborts immediately
with an empty effect trace (in particular no `stopRx`). -/
theorem C6_drop_unimplemented :
    dropUarte (mkSt false false false 0 (rbN 4 0) RxState.Receiving false (rbN 4 0)
        TxState.Idle false) =
      Except.error (mkSt false false false 0 (rbN 4 0) RxState.Receiving false (rbN 4 0)
        TxState.Idle false, []) ∧
    Effect.stopRx ∉ ([] : List Effect) :=
  ⟨rfl, by simp⟩

/-- C7 counterexample: the claim states that in any RX state other than
`Receiving` a signaled `rxdrdy` is acknowledged and the state left
unchanged.  At the concrete state `Idle` with `rxdrdy` set, `endrx` clear
and free space in the RX ring buffer, the step acknowledges the flag but
moves the machine to `Receiving` (it starts a new receive), so the state is
not unchanged. -/
theorem C7_counterexample :
    rxStep (mkSt true false false 0 (rbN 4 0) RxState.Idle false (rbN 4 0)
        TxState.Idle false) =
      Except.ok (mkSt false false false 0 (rbN 4 0) RxState.Receiving false (rbN 4 0)
        TxState.Idle false,
        [Effect.setRxdPtr, Effect.setRxdMaxcnt 4, Effect.intensetRxdrdy, Effect.startRx],
        false) ∧
    RxState.Receiving ≠ RxState.Idle := by
  constructor
  · decide
  · decide

/-- C7 (amended): in every RX state other than `Receiving`, a signaled
`rxdrdy` flag is acknowledged (cleared), and the acknowledgment itself
changes nothing else: the machine state is unchanged provided no other
trigger fires in the same step — in `Idle`, `endrx` must be clear
(otherwise the single fatal case) and the RX ring buffer must have no free
space (otherwise a new receive is started, `Idle → Receiving`); in
`ReceivingReady`/`Stopping`, `endrx` must be clear (otherwise the completed
transfer is processed, moving to `Idle`). -/
theorem C7_rxdrdy_tolerated (s : State) (hr : s.hw.events_rxdrdy = true)
    (hs : s.rx_state ≠ RxState.Receiving) (he : s.hw.events_endrx = false)
    (hfree : s.rx_state = RxState.Idle → s.rx.push_buf_len = 0) :
    rxStep s =
      Except.ok ({ s with hw := { s.hw with events_rxdrdy := false } }, [], false) := by
  obtain ⟨⟨rdy, erx, etx, amt⟩, rx, rxs, rxw, tx, txs, txw⟩ := s
  simp only at hr he
  subst hr; subst he
  cases rxs
  · simp only at hfree
    simp [rxStep, hfree trivial]
  · exact absurd rfl hs
  · simp [rxStep]
  · simp [rxStep]

theorem C7_witness :
    (mkSt true false false 0 (rbN 4 4) RxState.Idle false (rbN 4 0) TxState.Idle
        false).hw.events_rxdrdy = true ∧
    (mkSt true false false 0 (rbN 4 4) RxState.Idle false (rbN 4 0) TxState.Idle
        false).rx.push_buf_len = 0 ∧
    rxStep (mkSt true false false 0 (rbN 4 4) RxState.Idle false (rbN 4 0)
        TxState.Idle false) =
      Except.ok (mkSt false false false 0 (rbN 4 4) RxState.Idle false (rbN 4 0)
        TxState.Idle false, [], false) :=
  ⟨rfl, by decide,
   (C7_rxdrdy_tolerated _ rfl (by decide) rfl (fun _ => by decide)).trans (by decide)⟩

/-- C10: received bytes are committed into the RX ring buffer only while the
RX state machine is in `ReceivingReady` or `Stopping`.  In particular, in
`Receiving` with `rxdrdy` clear the step does nothing at all — whatever the
`endrx` flag holds, no bytes are committed, `endrx` is not acknowledged, and
the state stays `Receiving`; and any step that increases the RX fill level
started from `ReceivingReady` or `Stopping`. -/
theorem C10_commit_only_when_ready (s : State) :
    (s.rx_state = RxState.Receiving → s.hw.events_rxdrdy = false →
      rxStep s = Except.ok (s, [], false)) ∧
    (∀ s' effs mw, rxStep s = Except.ok (s', effs, mw) → s.rx.len < s'.rx.len →
      s.rx_state = RxState.ReceivingReady ∨ s.rx_state = RxState.Stopping) := by
  obtain ⟨⟨rdy, erx, etx, amt⟩, rx, rxs, rxw, tx, txs, txw⟩ := s
  constructor
  · intro hs hr
    simp only at hs hr
    subst hs; subst hr
    simp [rxStep]
  · intro s' effs mw h
    cases rxs <;> cases rdy <;> cases erx <;> cases rxw <;>
      simp [rxStep, doWakeRx] at h <;>
      (try split at h) <;>
      (try simp only [Except.ok.injEq, Prod.mk.injEq] at h) <;>
      (try (obtain ⟨h1, h2, h3⟩ := h; subst h1; subst h2; subst h3)) <;>
      simp

theorem C10_witness :
    ((mkSt false true false 3 (rbN 8 0) RxState.Receiving false (rbN 4 0)
        TxState.Idle false).hw.events_rxdrdy = false ∧
      rxStep (mkSt false true false 3 (rbN 8 0) RxState.Receiving false (rbN 4 0)
          TxState.Idle false) =
        Except.ok (mkSt false true false 3 (rbN 8 0) RxState.Receiving false (rbN 4 0)
          TxState.Idle false, [], false)) ∧
    ((rbN 8 0).len < (rbN 8 3).len ∧
      (RxState.ReceivingReady = RxState.ReceivingReady ∨
        RxState.ReceivingReady = RxState.Stopping)) := by
  constructor
  · exact ⟨rfl, (C10_commit_only_when_ready _).1 rfl rfl⟩
  · refine ⟨by decide, ?_⟩
    exact (C10_commit_only_when_ready
      (mkSt false true false 3 (rbN 8 0) RxState.ReceivingReady false (rbN 4 0)
        TxState.Idle false)).2
      (mkSt false false false 3 (rbN 8 3) RxState.Idle false (rbN 4 0) TxState.Idle false)
      [] true (by decide) (by decide)

/-- C8: the RX state machine is always in exactly one of the four states
`Idle`/`Receiving`/`ReceivingReady`/`Stopping`, and a DMA transfer is
programmed (pointer register written and start command issued) only during
the `Idle → Receiving` transition of the RX machine and the
`Idle → Transmitting n` transition of the TX machine — never while a
transfer is in flight; the async interface operations never program a
transfer at all. -/
theorem C8_dma_arming (s : State) :
    (s.rx_state = RxState.Idle ∨ s.rx_state = RxState.Receiving ∨
      s.rx_state = RxState.ReceivingReady ∨ s.rx_state = RxState.Stopping) ∧
    (∀ s' effs mw, rxStep s = Except.ok (s', effs, mw) →
      ((Effect.startRx ∈ effs ↔
          s.rx_state = RxState.Idle ∧ s'.rx_state = RxState.Receiving) ∧
       (Effect.setRxdPtr ∈ effs ↔ Effect.startRx ∈ effs) ∧
       Effect.startTx ∉ effs)) ∧
    (∀ s' effs mw, txStep s = (s', effs, mw) →
      ((Effect.startTx ∈ effs ↔
          s.tx_state = TxState.Idle ∧ s'.tx_state ≠ TxState.Idle) ∧
       (Effect.setTxdPtr ∈ effs ↔ Effect.startTx ∈ effs) ∧
       Effect.startRx ∉ effs)) ∧
    (∀ input, Effect.startRx ∉ (poll_write s input).2.1 ∧
      Effect.startTx ∉ (poll_write s input).2.1) ∧
    (Effect.startRx ∉ (poll_fill_buf s).2.1 ∧
      Effect.startTx ∉ (poll_fill_buf s).2.1) ∧
    (∀ amt, Effect.startRx ∉ (consume s amt).2 ∧
      Effect.startTx ∉ (consume s amt).2) := by
  obtain ⟨⟨rdy, erx, etx, amt⟩, rx, rxs, rxw, tx, txs, txw⟩ := s
  refine ⟨?_, ?_, ?_, ?_, ?_, ?_⟩
  · cases rxs <;> simp
  · intro s' effs mw h
    cases rxs <;> cases rdy <;> cases erx <;> cases rxw <;>
      simp [rxStep, doWakeRx] at h <;>
      (try split at h) <;>
      (try simp only [Except.ok.injEq, Prod.mk.injEq] at h) <;>
      (try (obtain ⟨h1, h2, h3⟩ := h; subst h1; subst h2; subst h3)) <;>
      simp
  · intro s' effs mw h
    cases txs <;> cases etx <;> cases txw <;>
      simp [txStep, doWakeTx] at h <;>
      (try split at h) <;>
      (try simp only [Prod.mk.injEq] at h) <;>
      (try (obtain ⟨h1, h2, h3⟩ := h; subst h1; subst h2; subst h3)) <;>
      simp
  · intro input
    simp only [poll_write]
    split <;> simp
  · simp only [poll_fill_buf]
    split
    · simp
    · split <;> simp
  · intro amt2
    simp [consume]

theorem C8_witness :
    ((mkSt false false false 0 (rbN 4 0) RxState.Idle false (rbN 4 2) TxState.Idle
        false).rx_state = RxState.Idle ∨
      (mkSt false false false 0 (rbN 4 0) RxState.Idle false (rbN 4 2) TxState.Idle
        false).rx_state = RxState.Receiving ∨
      (mkSt false false false 0 (rbN 4 0) RxState.Idle false (rbN 4 2) TxState.Idle
        false).rx_state = RxState.ReceivingReady ∨
      (mkSt false false false 0 (rbN 4 0) RxState.Idle false (rbN 4 2) TxState.Idle
        false).rx_state = RxState.Stopping) ∧
    ((Effect.startRx ∈ [Effect.setRxdPtr, Effect.setRxdMaxcnt 4, Effect.intensetRxdrdy,
        Effect.startRx] ↔
      (mkSt false false false 0 (rbN 4 0) RxState.Idle false (rbN 4 2) TxState.Idle
        false).rx_state = RxState.Idle ∧
      (mkSt false false false 0 (rbN 4 0) RxState.Receiving false (rbN 4 2) TxState.Idle
        false).rx_state = RxState.Receiving) ∧
     (Effect.setRxdPtr ∈ [Effect.setRxdPtr, Effect.setRxdMaxcnt 4, Effect.intensetRxdrdy,
        Effect.startRx] ↔
      Effect.startRx ∈ [Effect.setRxdPtr, Effect.setRxdMaxcnt 4, Effect.intensetRxdrdy,
        Effect.startRx]) ∧
     Effect.startTx ∉ [Effect.setRxdPtr, Effect.setRxdMaxcnt 4, Effect.intensetRxdrdy,
        Effect.startRx]) ∧
    ((Effect.startTx ∈ [Effect.setTxdPtr, Effect.setTxdMaxcnt 2, Effect.startTx] ↔
      (mkSt false false false 0 (rbN 4 0) RxState.Idle false (rbN 4 2) TxState.Idle
        false).tx_state = TxState.Idle ∧
      (mkSt false false false 0 (rbN 4 0) RxState.Idle false (rbN 4 2)
        (TxState.Transmitting 2) false).tx_state ≠ TxState.Idle) ∧
     (Effect.setTxdPtr ∈ [Effect.setTxdPtr, Effect.setTxdMaxcnt 2, Effect.startTx] ↔
      Effect.startTx ∈ [Effect.setTxdPtr, Effect.setTxdMaxcnt 2, Effect.startTx]) ∧
     Effect.startRx ∉ [Effect.setTxdPtr, Effect.setTxdMaxcnt 2, Effect.startTx]) ∧
    (Effect.startRx ∉ (poll_write (mkSt false false false 0 (rbN 4 0) RxState.Idle false
        (rbN 4 2) TxState.Idle false) [5]).2.1 ∧
      Effect.startTx ∉ (poll_write (mkSt false false false 0 (rbN 4 0) RxState.Idle false
        (rbN 4 2) TxState.Idle false) [5]).2.1) ∧
    (Effect.startRx ∉ (poll_fill_buf (mkSt false false false 0 (rbN 4 0) RxState.Idle false
        (rbN 4 2) TxState.Idle false)).2.1 ∧
      Effect.startTx ∉ (poll_fill_buf (mkSt false false false 0 (rbN 4 0) RxState.Idle false
        (rbN 4 2) TxState.Idle false)).2.1) ∧
    (Effect.startRx ∉ (consume (mkSt false false false 0 (rbN 4 0) RxState.Idle false
        (rbN 4 2) TxState.Idle false) 0).2 ∧
      Effect.startTx ∉ (consume (mkSt false false false 0 (rbN 4 0) RxState.Idle false
        (rbN 4 2) TxState.Idle false) 0).2) := by
  have h := C8_dma_arming (mkSt false false false 0 (rbN 4 0) RxState.Idle false (rbN 4 2)
    TxState.Idle false)
  exact ⟨h.1,
    h.2.1 (mkSt false false false 0 (rbN 4 0) RxState.Receiving false (rbN 4 2)
      TxState.Idle false) _ false (by decide),
    h.2.2.1 (mkSt false false false 0 (rbN 4 0) RxState.Idle false (rbN 4 2)
      (TxState.Transmitting 2) false) _ false (by decide),
    h.2.2.2.1 [5], h.2.2.2.2.1, h.2.2.2.2.2 0⟩

/-- C9: wake liveness of the interrupt step function.  For any invocation
that returns normally: if an RX waiter was registered and the invocation
took the RX ring buffer from empty to non-empty, the RX waiter was woken
before the return; if a TX waiter was registered and the invocation freed
space in the TX ring buffer (its fill level decreased), the TX waiter was
woken before the return. -/
theorem C9_wake_liveness (s s' : State) (effs : List Effect)
    (h : on_interrupt s = Except.ok (s', effs)) :
    (s.rx_waker = true → s.rx.len = 0 → s'.rx.len ≠ 0 → Effect.wakeRx ∈ effs) ∧
    (s.tx_waker = true → s'.tx.len < s.tx.len → Effect.wakeTx ∈ effs) := by
  rw [on_interrupt] at h
  cases hrx : runRxLoopF 3 s with
  | error e => rw [hrx] at h; simp at h
  | ok v =>
    obtain ⟨s1, e1⟩ := v
    rw [hrx] at h
    dsimp only at h
    simp only [Except.ok.injEq, Prod.mk.injEq] at h
    obtain ⟨h1, h2⟩ := h
    subst h1; subst h2
    have hrxframe := runRxLoopF_frame 3 s s1 e1 hrx
    have htxframe := runTxLoopF_frame 2 s1
    constructor
    · intro hreg h0 hne
      rcases runRxLoopF_wake_inv 3 s s1 e1 hrx hreg with hw | ⟨_, hlen⟩
      · exact List.mem_append.mpr (Or.inl hw)
      · exfalso
        apply hne
        rw [htxframe.1, hlen, h0]
    · intro hreg hlt
      have hreg1 : s1.tx_waker = true := by rw [hrxframe.2.2.1, hreg]
      rcases runTxLoopF_wake_inv 2 s1 hreg1 with hw | ⟨_, hlen⟩
      · exact List.mem_append.mpr (Or.inr hw)
      · exfalso
        rw [hlen, hrxframe.1] at hlt
        exact lt_irrefl _ hlt

theorem C9_witness :
    (mkSt false true true 2 (rbN 8 0) RxState.ReceivingReady true (rbN 4 4)
        (TxState.Transmitting 2) true).rx_waker = true ∧
    (mkSt false true true 2 (rbN 8 0) RxState.ReceivingReady true (rbN 4 4)
        (TxState.Transmitting 2) true).rx.len = 0 ∧
    (((on_interrupt (mkSt false true true 2 (rbN 8 0) RxState.ReceivingReady true (rbN 4 4)
        (TxState.Transmitting 2) true)).toOption.getD
          (mkSt false true true 2 (rbN 8 0) RxState.ReceivingReady true (rbN 4 4)
            (TxState.Transmitting 2) true, [])).1.rx.len ≠ 0) ∧
    Effect.wakeRx ∈ ((on_interrupt (mkSt false true true 2 (rbN 8 0) RxState.ReceivingReady
        true (rbN 4 4) (TxState.Transmitting 2) true)).toOption.getD
          (mkSt false true true 2 (rbN 8 0) RxState.ReceivingReady true (rbN 4 4)
            (TxState.Transmitting 2) true, [])).2 ∧
    Effect.wakeTx ∈ ((on_interrupt (mkSt false true true 2 (rbN 8 0) RxState.ReceivingReady
        true (rbN 4 4) (TxState.Transmitting 2) true)).toOption.getD
          (mkSt false true true 2 (rbN 8 0) RxState.ReceivingReady true (rbN 4 4)
            (TxState.Transmitting 2) true, [])).2 := by
  have h := C9_wake_liveness
    (mkSt false true true 2 (rbN 8 0) RxState.ReceivingReady true (rbN 4 4)
      (TxState.Transmitting 2) true)
    ((on_interrupt (mkSt false true true 2 (rbN 8 0) RxState.ReceivingReady true (rbN 4 4)
      (TxState.Transmitting 2) true)).toOption.getD
        (mkSt false true true 2 (rbN 8 0) RxState.ReceivingReady true (rbN 4 4)
          (TxState.Transmitting 2) true, [])).1
    ((on_interrupt (mkSt false true true 2 (rbN 8 0) RxState.ReceivingReady true (rbN 4 4)
      (TxState.Transmitting 2) true)).toOption.getD
        (mkSt false true true 2 (rbN 8 0) RxState.ReceivingReady true (rbN 4 4)
          (TxState.Transmitting 2) true, [])).2
    (by decide)
  exact ⟨rfl, rfl, by decide, h.1 rfl rfl (by decide), h.2 rfl (by decide)⟩
